import Mathlib

/-!
# Replicant "silver" polish and toneburst factory: a shallow embedding

Embedding of `transports/Replicant/polish/silver.go` and
`transports/Replicant/toneburst/toneburst.go`.

Conventions of the embedding:

* a Go `[]byte` is a `List Nat` whose entries are byte values (`< 256`);
* a Go call that returns `(value, error)` and may also panic is a value of
  `Outcome`: `ok v` for `(v, nil)`, `err e` for `(zero, e)`, `panic m` for a
  run-time panic;
* a `nil`-able Go value (pointer, interface) is an `Option`;
* every read of `crypto/rand` is an explicit argument (the bytes drawn, or the
  error of the reader);
* the library primitives the source calls are written out from their public
  definitions: SHA-256 (FIPS 180-4), HMAC (RFC 2104), HKDF (RFC 5869),
  ChaCha20-Poly1305 (RFC 8439) and the curve P-256 with the uncompressed
  point encoding of ANSI X9.62 section 4.3.6;
* logging calls (`log.Error`, `fmt.Println`, `println`) have no effect on the
  values returned and are left out.
-/

namespace Silver

/-! ## Go run-time model -/

/-- Byte strings: a Go `[]byte`. -/
abbrev Bytes := List Nat

/-- Result of a Go call returning `(value, error)`, with run-time panics made explicit. -/
inductive Outcome (α : Type) where
  | ok (val : α)
  | err (e : String)
  | panic (msg : String)
deriving DecidableEq, Repr

deriving instance DecidableEq for Except

/-- The call returned normally (with a value or with an error). -/
def Outcome.Returns {α : Type} : Outcome α → Prop
  | .ok _ => True
  | .err _ => True
  | .panic _ => False

instance {α : Type} (o : Outcome α) : Decidable o.Returns := by
  cases o <;> unfold Outcome.Returns <;> infer_instance

/-- Sequencing of Go calls: an error or a panic of the first call ends the function. -/
def Outcome.bind {α β : Type} (o : Outcome α) (f : α → Outcome β) : Outcome β :=
  match o with
  | .ok v => f v
  | .err e => .err e
  | .panic m => .panic m

instance : Monad Outcome where
  pure := Outcome.ok
  bind := Outcome.bind

/-- The Go builtin `copy(dst, src)`: overwrites the first `min (len dst) (len src)` bytes of `dst`. -/
def copy (dst src : Bytes) : Bytes :=
  src.take dst.length ++ dst.drop src.length

/-- The Go expression `make([]byte, n)` for `n : int`: panics when `n` is negative. -/
def makeBytes (n : Int) : Outcome Bytes :=
  if n < 0 then .panic "makeslice: len out of range" else .ok (List.replicate n.toNat 0)

/-- One read of `crypto/rand`: `rand.Read(buf)` either fails or overwrites `buf` with the bytes drawn. -/
def rand_Read (buf : Bytes) (draw : Except String Bytes) : Except String Bytes :=
  match draw with
  | .error e => .error e
  | .ok r => .ok (copy buf r)

/-! ## Big-endian / little-endian encodings -/

/-- The four bytes of `binary.BigEndian.PutUint32`. -/
def be32 (w : Nat) : Bytes :=
  [(w >>> 24) % 256, (w >>> 16) % 256, (w >>> 8) % 256, w % 256]

/-- Eight bytes, big-endian. -/
def be64 (w : Nat) : Bytes := be32 ((w >>> 32) % 2^32) ++ be32 (w % 2^32)

/-- Big-endian value of a byte string (`big.Int.SetBytes`). -/
def fromBE (b : Bytes) : Nat := b.foldl (fun acc x => acc * 256 + x) 0

/-- Big-endian encoding on exactly `n` bytes (`big.Int.FillBytes`). -/
def toBE : Nat → Nat → Bytes
  | 0, _ => []
  | n+1, v => toBE n (v / 256) ++ [v % 256]

/-- Little-endian value of a byte string. -/
def fromLE : Bytes → Nat
  | [] => 0
  | x :: rest => x + 256 * fromLE rest

/-- Little-endian encoding on exactly `n` bytes. -/
def toLE : Nat → Nat → Bytes
  | 0, _ => []
  | n+1, v => (v % 256) :: toLE n (v / 256)

/-! ## SHA-256 (FIPS 180-4), as `crypto/sha256` -/

/-- Rotate a 32-bit word right. -/
def rotr32 (x n : Nat) : Nat := ((x >>> n) ||| (x <<< (32 - n))) % 2^32

/-- The round constants of SHA-256. -/
def sha256_K : List Nat := [
  0x428a2f98, 0x71374491, 0xb5c0fbcf, 0xe9b5dba5, 0x3956c25b, 0x59f111f1, 0x923f82a4, 0xab1c5ed5,
  0xd807aa98, 0x12835b01, 0x243185be, 0x550c7dc3, 0x72be5d74, 0x80deb1fe, 0x9bdc06a7, 0xc19bf174,
  0xe49b69c1, 0xefbe4786, 0x0fc19dc6, 0x240ca1cc, 0x2de92c6f, 0x4a7484aa, 0x5cb0a9dc, 0x76f988da,
  0x983e5152, 0xa831c66d, 0xb00327c8, 0xbf597fc7, 0xc6e00bf3, 0xd5a79147, 0x06ca6351, 0x14292967,
  0x27b70a85, 0x2e1b2138, 0x4d2c6dfc, 0x53380d13, 0x650a7354, 0x766a0abb, 0x81c2c92e, 0x92722c85,
  0xa2bfe8a1, 0xa81a664b, 0xc24b8b70, 0xc76c51a3, 0xd192e819, 0xd6990624, 0xf40e3585, 0x106aa070,
  0x19a4c116, 0x1e376c08, 0x2748774c, 0x34b0bcb5, 0x391c0cb3, 0x4ed8aa4a, 0x5b9cca4f, 0x682e6ff3,
  0x748f82ee, 0x78a5636f, 0x84c87814, 0x8cc70208, 0x90befffa, 0xa4506ceb, 0xbef9a3f7, 0xc67178f2]

/-- The eight working words of SHA-256. -/
structure Digest where
  h0 : Nat
  h1 : Nat
  h2 : Nat
  h3 : Nat
  h4 : Nat
  h5 : Nat
  h6 : Nat
  h7 : Nat
deriving DecidableEq, Repr

/-- Initial hash value of SHA-256. -/
def sha256_init : Digest :=
  ⟨0x6a09e667, 0xbb67ae85, 0x3c6ef372, 0xa54ff53a, 0x510e527f, 0x9b05688c, 0x1f83d9ab, 0x5be0cd19⟩

/-- Big-endian 32-bit words of a block. -/
def wordsOf : Bytes → List Nat
  | a :: b :: c :: d :: rest => (a * 2^24 + b * 2^16 + c * 2^8 + d) :: wordsOf rest
  | _ => []

/-- The function sigma-0 of the message schedule. -/
def ssig0 (x : Nat) : Nat := rotr32 x 7 ^^^ rotr32 x 18 ^^^ (x >>> 3)
/-- The function sigma-1 of the message schedule. -/
def ssig1 (x : Nat) : Nat := rotr32 x 17 ^^^ rotr32 x 19 ^^^ (x >>> 10)
/-- The function Sigma-0 of the round. -/
def bsig0 (x : Nat) : Nat := rotr32 x 2 ^^^ rotr32 x 13 ^^^ rotr32 x 22
/-- The function Sigma-1 of the round. -/
def bsig1 (x : Nat) : Nat := rotr32 x 6 ^^^ rotr32 x 11 ^^^ rotr32 x 25
/-- The choice function of the round. -/
def ch (x y z : Nat) : Nat := (x &&& y) ^^^ ((x ^^^ 0xffffffff) &&& z)
/-- The majority function of the round. -/
def maj (x y z : Nat) : Nat := (x &&& y) ^^^ (x &&& z) ^^^ (y &&& z)

/-- Extend the message schedule by `n` words; `w` holds the words so far, newest first. -/
def schedule : Nat → List Nat → List Nat
  | 0, w => w
  | n+1, w =>
    match w with
    | _ :: w2 :: _ :: _ :: _ :: _ :: w7 :: _ :: _ :: _ :: _ :: _ :: _ :: _ :: w15 :: w16 :: _ =>
      schedule n (((ssig1 w2 + w7 + ssig0 w15 + w16) % 2^32) :: w)
    | _ => w

/-- One round of the compression function. -/
def round (s : Digest) (k w : Nat) : Digest :=
  let t1 := (s.h7 + bsig1 s.h4 + ch s.h4 s.h5 s.h6 + k + w) % 2^32
  let t2 := (bsig0 s.h0 + maj s.h0 s.h1 s.h2) % 2^32
  ⟨(t1 + t2) % 2^32, s.h0, s.h1, s.h2, (s.h3 + t1) % 2^32, s.h4, s.h5, s.h6⟩

/-- The 64 rounds, one per round constant and schedule word. -/
def rounds : Digest → List Nat → List Nat → Digest
  | s, k :: ks, w :: ws => rounds (round s k w) ks ws
  | s, _, _ => s

/-- The compression function on one 64-byte block. -/
def compress (s : Digest) (block : Bytes) : Digest :=
  let w := (schedule 48 (wordsOf block).reverse).reverse
  let t := rounds s sha256_K w
  ⟨(s.h0 + t.h0) % 2^32, (s.h1 + t.h1) % 2^32, (s.h2 + t.h2) % 2^32, (s.h3 + t.h3) % 2^32,
   (s.h4 + t.h4) % 2^32, (s.h5 + t.h5) % 2^32, (s.h6 + t.h6) % 2^32, (s.h7 + t.h7) % 2^32⟩

/-- Padding: a `0x80` byte, zeros up to 56 mod 64, then the bit length on 8 bytes. -/
def sha256_pad (msg : Bytes) : Bytes :=
  msg ++ [0x80] ++ List.replicate ((119 - msg.length % 64) % 64) 0 ++ be64 (8 * msg.length)

/-- Absorb `n` blocks of 64 bytes. -/
def absorb : Nat → Digest → Bytes → Digest
  | 0, s, _ => s
  | n+1, s, bs => absorb n (compress s (bs.take 64)) (bs.drop 64)

/-- Output size of SHA-256 in bytes (`h.Size()`). -/
def sha256_Size : Nat := 32

/-- Block size of SHA-256 in bytes (`h.BlockSize()`). -/
def sha256_BlockSize : Nat := 64

/-- The SHA-256 digest of a message: `h := sha256.New(); h.Write(msg); h.Sum(nil)`. -/
@[irreducible]
def sha256 (msg : Bytes) : Bytes :=
  let p := sha256_pad msg
  let d := absorb (p.length / 64) sha256_init p
  be32 d.h0 ++ be32 d.h1 ++ be32 d.h2 ++ be32 d.h3 ++ be32 d.h4 ++ be32 d.h5 ++ be32 d.h6 ++ be32 d.h7

/-! ## HMAC-SHA-256 (RFC 2104) and HKDF (RFC 5869), as `golang.org/x/crypto/hkdf` -/

/-- HMAC with SHA-256. -/
def hmac_sha256 (key msg : Bytes) : Bytes :=
  let k0 := if sha256_BlockSize < key.length then sha256 key else key
  let k := k0 ++ List.replicate (sha256_BlockSize - k0.length) 0
  sha256 (k.map (· ^^^ 0x5c) ++ sha256 (k.map (· ^^^ 0x36) ++ msg))

/-- HKDF-Extract; a `nil` salt stands for `hash.Size()` zero bytes. -/
def hkdf_Extract (secret : Bytes) (salt : Option Bytes) : Bytes :=
  hmac_sha256 (match salt with | none => List.replicate sha256_Size 0 | some s => s) secret

/-- HKDF-Expand: blocks `T(counter), T(counter+1), ...`, `n` of them, after the block `prev`. -/
def hkdf_blocks (prk info : Bytes) : Nat → Bytes → Nat → Bytes
  | 0, _, _ => []
  | n+1, prev, counter =>
    let t := hmac_sha256 prk (prev ++ info ++ [counter % 256])
    t ++ hkdf_blocks prk info n t (counter + 1)

/-- The reader `hkdf.New(sha256.New, secret, salt, info)` read once for `n` bytes. -/
def hkdf_Read (secret : Bytes) (salt : Option Bytes) (info : Bytes) (n : Nat) : Except String Bytes :=
  if 255 * sha256_Size < n then .error "hkdf: entropy limit reached"
  else .ok ((hkdf_blocks (hkdf_Extract secret salt) info ((n + sha256_Size - 1) / sha256_Size) [] 1).take n)

/-! ## ChaCha20-Poly1305 (RFC 8439), as `golang.org/x/crypto/chacha20poly1305` -/

/-- Rotate a 32-bit word left. -/
def rotl32 (x n : Nat) : Nat := ((x <<< n) ||| (x >>> (32 - n))) % 2^32

/-- The ChaCha quarter round on the words at positions `a b c d` of the state. -/
def quarterRound (s : List Nat) (a b c d : Nat) : List Nat :=
  let xa := s.getD a 0
  let xb := s.getD b 0
  let xc := s.getD c 0
  let xd := s.getD d 0
  let xa := (xa + xb) % 2^32
  let xd := rotl32 (xd ^^^ xa) 16
  let xc := (xc + xd) % 2^32
  let xb := rotl32 (xb ^^^ xc) 12
  let xa := (xa + xb) % 2^32
  let xd := rotl32 (xd ^^^ xa) 8
  let xc := (xc + xd) % 2^32
  let xb := rotl32 (xb ^^^ xc) 7
  (((s.set a xa).set b xb).set c xc).set d xd

/-- A column round followed by a diagonal round. -/
def doubleRound (s : List Nat) : List Nat :=
  let s := quarterRound s 0 4 8 12
  let s := quarterRound s 1 5 9 13
  let s := quarterRound s 2 6 10 14
  let s := quarterRound s 3 7 11 15
  let s := quarterRound s 0 5 10 15
  let s := quarterRound s 1 6 11 12
  let s := quarterRound s 2 7 8 13
  quarterRound s 3 4 9 14

/-- Little-endian 32-bit words of a byte string. -/
def wordsLE : Bytes → List Nat
  | a :: b :: c :: d :: rest => (a + b * 2^8 + c * 2^16 + d * 2^24) :: wordsLE rest
  | _ => []

/-- Apply a function `n` times. -/
def iter {α : Type} (f : α → α) : Nat → α → α
  | 0, x => x
  | n+1, x => iter f n (f x)

/-- The ChaCha20 block function: 64 bytes of key stream for one block counter. -/
@[irreducible]
def chacha20_block (key nonce : Bytes) (counter : Nat) : Bytes :=
  let init := [0x61707865, 0x3320646e, 0x79622d32, 0x6b206574] ++ wordsLE key
    ++ [counter % 2^32] ++ wordsLE nonce
  let mixed := iter doubleRound 10 init
  (List.zipWith (fun x y => (x + y) % 2^32) mixed init).flatMap (toLE 4)

/-- Key stream of `n` blocks starting at block `counter`. -/
def chacha20_stream (key nonce : Bytes) : Nat → Nat → Bytes
  | 0, _ => []
  | n+1, counter => chacha20_block key nonce counter ++ chacha20_stream key nonce n (counter + 1)

/-- XOR of the data with the ChaCha20 key stream that starts at block `counter`. -/
def chacha20_xor (key nonce : Bytes) (counter : Nat) (data : Bytes) : Bytes :=
  List.zipWith (· ^^^ ·) data (chacha20_stream key nonce ((data.length + 63) / 64) counter)

/-- The Poly1305 accumulator over the 16-byte chunks of the message. -/
def poly1305_acc (r : Nat) : Nat → Nat → Bytes → Nat
  | 0, acc, _ => acc
  | n+1, acc, msg =>
    poly1305_acc r n (((acc + fromLE (msg.take 16 ++ [1])) * r) % (2^130 - 5)) (msg.drop 16)

/-- The Poly1305 one-time authenticator: a 16-byte tag. -/
@[irreducible]
def poly1305 (key msg : Bytes) : Bytes :=
  let r := fromLE (key.take 16) &&& 0x0ffffffc0ffffffc0ffffffc0fffffff
  let s := fromLE ((key.drop 16).take 16)
  toLE 16 ((poly1305_acc r ((msg.length + 15) / 16) 0 msg + s) % 2^128)

/-- Zero padding up to a multiple of 16 bytes. -/
def pad16 (b : Bytes) : Bytes := List.replicate ((16 - b.length % 16) % 16) 0

/-- The tag of the AEAD construction over the associated data and the ciphertext. -/
def aead_tag (key nonce ad ct : Bytes) : Bytes :=
  let otk := (chacha20_block key nonce 0).take 32
  poly1305 otk (ad ++ pad16 ad ++ ct ++ pad16 ct ++ toLE 8 ad.length ++ toLE 8 ct.length)

/-- A keyed ChaCha20-Poly1305 instance (the value behind `cipher.AEAD`). -/
structure AEAD where
  key : Bytes
deriving DecidableEq, Repr

/-- The constant `chacha20poly1305.KeySize`. -/
def chacha20poly1305_KeySize : Nat := 32

/-- The constant `chacha20poly1305.NonceSize`. -/
def chacha20poly1305_NonceSize : Nat := 12

/-- The constant `chacha20poly1305.Overhead`: the size of the tag. -/
def chacha20poly1305_Overhead : Nat := 16

/-- The constructor `chacha20poly1305.New(key)`: fails unless the key has 32 bytes. -/
def chacha20poly1305_New (key : Bytes) : Except String AEAD :=
  if key.length ≠ chacha20poly1305_KeySize then .error "chacha20poly1305: bad key length"
  else .ok ⟨key⟩

/-- The method `NonceSize()`. -/
def AEAD.NonceSize (_ : AEAD) : Nat := chacha20poly1305_NonceSize

/-- The method `Overhead()`. -/
def AEAD.Overhead (_ : AEAD) : Nat := chacha20poly1305_Overhead

/-- The method `Seal(dst, nonce, plaintext, additionalData)`: appends ciphertext and tag to `dst`.
It never returns an error; it panics on a nonce of the wrong length and on an over-long plaintext. -/
def AEAD.Seal (c : AEAD) (dst nonce plaintext additionalData : Bytes) : Outcome Bytes :=
  if nonce.length ≠ chacha20poly1305_NonceSize then
    .panic "chacha20poly1305: bad nonce length passed to Seal"
  else if 2^38 - 64 < plaintext.length then
    .panic "chacha20poly1305: plaintext too large"
  else
    let ct := chacha20_xor c.key nonce 1 plaintext
    .ok (dst ++ ct ++ aead_tag c.key nonce additionalData ct)

/-- The method `Open(dst, nonce, ciphertext, additionalData)`: verifies the tag, then appends the
plaintext to `dst`. -/
def AEAD.Open (c : AEAD) (dst nonce ciphertext additionalData : Bytes) : Outcome Bytes :=
  if nonce.length ≠ chacha20poly1305_NonceSize then
    .panic "chacha20poly1305: bad nonce length passed to Open"
  else if ciphertext.length < 16 then
    .err "chacha20poly1305: message authentication failed"
  else if 2^38 - 48 < ciphertext.length then
    .panic "chacha20poly1305: ciphertext too large"
  else
    let ct := ciphertext.take (ciphertext.length - 16)
    let tag := ciphertext.drop (ciphertext.length - 16)
    if aead_tag c.key nonce additionalData ct = tag then
      .ok (dst ++ chacha20_xor c.key nonce 1 ct)
    else .err "chacha20poly1305: message authentication failed"

/-! ## The curve P-256 and the X9.62 point encoding, as `crypto/elliptic` -/

/-- The field prime of P-256. -/
def P256_P : Nat := 0xffffffff00000001000000000000000000000000ffffffffffffffffffffffff

/-- The order of the base point. -/
def P256_N : Nat := 0xffffffff00000000ffffffffffffffffbce6faada7179e84f3b9cac2fc632551

/-- The coefficient `b` of the curve equation `y^2 = x^3 - 3x + b`. -/
def P256_B : Nat := 0x5ac635d8aa3a93e7b3ebbd55769886bc651d06b0cc53b0f63bce3c3e27d2604b

/-- The base point, `x` coordinate. -/
def P256_Gx : Nat := 0x6b17d1f2e12c4247f8bce6e563a440f277037d812deb33a0f4a13945d898c296

/-- The base point, `y` coordinate. -/
def P256_Gy : Nat := 0x4fe342e2fe1a7f9b8ee7eb4a7c0f9e162bce33576b315ececbb6406837bf51f5

/-- The value `elliptic.P256().Params().BitSize`. -/
def P256_BitSize : Nat := 256

/-- The method `IsOnCurve(x, y)`. -/
@[irreducible]
def P256_IsOnCurve (x y : Nat) : Bool :=
  (y * y) % P256_P == (x * x * x + (P256_P - 3) * x + P256_B) % P256_P

/-- Modular exponentiation by squaring; `fuel` bounds the bit length of the exponent. -/
def powMod (m : Nat) : Nat → Nat → Nat → Nat
  | 0, _, _ => 1 % m
  | fuel+1, b, e =>
    if e = 0 then 1 % m
    else
      let h := powMod m fuel ((b * b) % m) (e / 2)
      if e % 2 = 1 then (b * h) % m else h

/-- Inverse in the field of P-256 (`ModInverse(z, P)`), by Fermat. -/
@[irreducible]
def P256_inv (a : Nat) : Nat := powMod P256_P 256 (a % P256_P) (P256_P - 2)

/-- Subtraction in the field of P-256. -/
def P256_sub (a b : Nat) : Nat := (a + (P256_P - b % P256_P)) % P256_P

/-- A point in Jacobian coordinates: `(X, Y, Z)` stands for the affine point `(X/Z^2, Y/Z^3)`,
and `Z = 0` for the point at infinity. -/
structure Jacobian where
  x : Nat
  y : Nat
  z : Nat
deriving DecidableEq, Repr

/-- Point doubling in Jacobian coordinates (`doubleJacobian`, formulas dbl-2001-b). -/
def P256_doubleJacobian (p : Jacobian) : Jacobian :=
  let delta := (p.z * p.z) % P256_P
  let gamma := (p.y * p.y) % P256_P
  let beta := (p.x * gamma) % P256_P
  let alpha := (3 * (P256_sub p.x delta * (p.x + delta))) % P256_P
  let x3 := P256_sub (alpha * alpha) (8 * beta)
  let z3 := P256_sub (P256_sub ((p.y + p.z) * (p.y + p.z)) gamma) delta
  let y3 := P256_sub (alpha * P256_sub (4 * beta) x3) (8 * gamma * gamma)
  ⟨x3, y3, z3⟩

/-- Point addition in Jacobian coordinates (`addJacobian`, formulas add-2007-bl). -/
def P256_addJacobian (p q : Jacobian) : Jacobian :=
  if p.z % P256_P = 0 then q
  else if q.z % P256_P = 0 then p
  else
    let z1z1 := (p.z * p.z) % P256_P
    let z2z2 := (q.z * q.z) % P256_P
    let u1 := (p.x * z2z2) % P256_P
    let u2 := (q.x * z1z1) % P256_P
    let h := P256_sub u2 u1
    let i := (4 * h * h) % P256_P
    let j := (h * i) % P256_P
    let s1 := (p.y * q.z * z2z2) % P256_P
    let s2 := (q.y * p.z * z1z1) % P256_P
    let r := (2 * P256_sub s2 s1) % P256_P
    if h = 0 ∧ r = 0 then P256_doubleJacobian p
    else
      let v := (u1 * i) % P256_P
      let x3 := P256_sub (P256_sub (r * r) j) (2 * v)
      let y3 := P256_sub (r * P256_sub v x3) (2 * s1 * j)
      let z3 := (P256_sub (P256_sub ((p.z + q.z) * (p.z + q.z)) z1z1) z2z2 * h) % P256_P
      ⟨x3, y3, z3⟩

/-- Back to affine coordinates (`affineFromJacobian`); the point at infinity becomes `(0, 0)`. -/
def P256_affineFromJacobian (p : Jacobian) : Nat × Nat :=
  if p.z % P256_P = 0 then (0, 0)
  else
    let zinv := P256_inv p.z
    let zinvsq := (zinv * zinv) % P256_P
    ((p.x * zinvsq) % P256_P, (p.y * (zinvsq * zinv % P256_P)) % P256_P)

/-- The eight steps of the double-and-add loop for one byte of the scalar, top bit first. -/
def P256_mulByte (base : Jacobian) : Nat → Nat → Jacobian → Jacobian
  | 0, _, acc => acc
  | n+1, byte, acc =>
    let acc := P256_doubleJacobian acc
    let acc := if byte &&& 0x80 = 0x80 then P256_addJacobian base acc else acc
    P256_mulByte base n ((byte <<< 1) % 256) acc

/-- The method `ScalarMult(Bx, By, k)`: the scalar is a big-endian byte string, scanned by
double-and-add from the top bit. -/
@[irreducible]
def P256_ScalarMult (Bx By : Nat) (k : Bytes) : Nat × Nat :=
  P256_affineFromJacobian (k.foldl (fun acc byte => P256_mulByte ⟨Bx, By, 1⟩ 8 byte acc) ⟨0, 0, 0⟩)

/-- The method `ScalarBaseMult(k)`. -/
def P256_ScalarBaseMult (k : Bytes) : Nat × Nat := P256_ScalarMult P256_Gx P256_Gy k

/-- The function `elliptic.Marshal(curve, x, y)`: `0x04 || X || Y`, each coordinate on 32 bytes. -/
def elliptic_Marshal (x y : Nat) : Bytes :=
  [4] ++ toBE ((P256_BitSize + 7) / 8) x ++ toBE ((P256_BitSize + 7) / 8) y

/-- The function `elliptic.Unmarshal(curve, data)`: `none` is the pair `(nil, nil)` returned for a
string that is not the encoding of a point of the curve. -/
def elliptic_Unmarshal (data : Bytes) : Option (Nat × Nat) :=
  let byteLen := (P256_BitSize + 7) / 8
  if data.length ≠ 1 + 2 * byteLen then none
  else if data.headD 0 ≠ 4 then none
  else
    let x := fromBE ((data.drop 1).take byteLen)
    let y := fromBE (data.drop (1 + byteLen))
    if P256_P ≤ x ∨ P256_P ≤ y then none
    else if !P256_IsOnCurve x y then none
    else some (x, y)

/-- The function `elliptic.GenerateKey(curve, rand.Reader)`. The argument is what the reader
yields: an error, or the private scalar the sampling loop settles on (32 bytes, below the order of
the base point). The public point is the scalar times the base point. -/
def elliptic_GenerateKey (draw : Except String Bytes) : Except String (Bytes × Nat × Nat) :=
  match draw with
  | .error e => .error e
  | .ok priv => .ok (priv, (P256_ScalarBaseMult priv).1, (P256_ScalarBaseMult priv).2)

/-! ## Connections (`net.Conn`) as a simulated pipe -/

/-- A connection: the bytes the peer delivers before the stream ends, the buffers handed to
`Write` so far, and the error (if any) that `Write` reports. -/
structure Conn where
  incoming : Bytes
  written : List Bytes
  writeError : Option String
deriving DecidableEq, Repr

/-- The method `conn.Write(b)`: one call, recorded in the connection. -/
def Conn.Write (conn : Conn) (b : Bytes) : Option String × Conn :=
  (conn.writeError, { conn with written := conn.written ++ [b] })

/-- The function `io.ReadFull(conn, buf)`: fills `buf` exactly, or fails when the stream ends first. -/
def io_ReadFull (conn : Conn) (buf : Bytes) : Except String Bytes × Conn :=
  if buf.length ≤ conn.incoming.length then
    (.ok (conn.incoming.take buf.length), { conn with incoming := conn.incoming.drop buf.length })
  else
    (.error (if conn.incoming.isEmpty then "EOF" else "unexpected EOF"), { conn with incoming := [] })

/-- The pair of slice expressions `input[:n]` and `input[n:]`. The second one panics whenever
`n > len(input)` (the first one already does when `n > cap(input)`), so together they panic
exactly when the input is shorter than `n`. -/
def splitSlice (input : Bytes) (n : Nat) : Outcome (Bytes × Bytes) :=
  if input.length < n then .panic "runtime error: slice bounds out of range"
  else .ok (input.take n, input.drop n)

/-- The conversion `int(v.Int64())` of a non-negative `big.Int`: the low 64 bits, as a signed number. -/
def int64 (v : Nat) : Int :=
  if v % 2^64 < 2^63 then ((v % 2^64 : Nat) : Int) else ((v % 2^64 : Nat) : Int) - 2^64

/-- Bit length of a number below `2 ^ fuel`, by halving. -/
def bitLenAux : Nat → Nat → Nat
  | 0, _ => 0
  | fuel+1, n => if n = 0 then 0 else bitLenAux fuel (n / 2) + 1

/-- Bit length of a number (`big.Int.BitLen`). -/
def bitLen (n : Nat) : Nat := bitLenAux n n

/-- The sampling loop of `rand.Int`: read `k` bytes, clear the bits above bit `b` of the first
byte, and return the candidate when it is below `max`; otherwise read again. The argument lists
what the reader yields at each read; a reader with nothing left fails the read with `EOF`. -/
def rand_Int_loop (max k b : Nat) : List (Except String Bytes) → Outcome Nat
  | [] => .err "EOF"
  | read :: rest =>
    match rand_Read (List.replicate k 0) read with
    | .error err => .err err
    | .ok bytes =>
      let bytes := match bytes with
        | [] => []
        | first :: tail => (first &&& ((1 <<< b) - 1)) :: tail
      let n := fromBE bytes
      if n < max then .ok n else rand_Int_loop max k b rest

/-- The function `rand.Int(rand.Reader, max)`: a number in `[0, max)`, by rejection sampling over
the reads of the reader. It panics when `max` is not positive. -/
def rand_Int (reads : List (Except String Bytes)) (max : Int) : Outcome Nat :=
  if max ≤ 0 then .panic "crypto/rand: argument to Int is <= 0"
  else
    let n := max.toNat - 1
    let bitLen := bitLen n
    if bitLen = 0 then .ok 0
    else
      let k := (bitLen + 7) / 8
      let b := if bitLen % 8 = 0 then 8 else bitLen % 8
      rand_Int_loop max.toNat k b reads

/-! ## `silver.go` -/

/-- The package variable `silverPublicKeySize`. -/
def silverPublicKeySize : Nat := 1 + 2 * ((P256_BitSize + 7) >>> 3)

structure SilverPolishClientConfig where
  ServerPublicKey : Bytes
  ChunkSize : Int
deriving DecidableEq, Repr

structure SilverPolishServerConfig where
  ServerPublicKey : Bytes
  ServerPrivateKey : Bytes
  ChunkSize : Int
deriving DecidableEq, Repr

structure SilverPolishClient where
  serverPublicKey : Bytes
  chunkSize : Int
  clientPublicKey : Bytes
  clientPrivateKey : Bytes
  sharedKey : Bytes
  polishCipher : Option AEAD
deriving DecidableEq, Repr

structure SilverPolishServerConnection where
  serverPublicKey : Bytes
  serverPrivateKey : Bytes
  chunkSize : Int
  clientPublicKey : Bytes
  sharedKey : Bytes
  polishCipher : Option AEAD
deriving DecidableEq, Repr

structure SilverPolishServer where
  serverPublicKey : Bytes
  serverPrivateKey : Bytes
  chunkSize : Int
  connections : List (Conn × SilverPolishServerConnection)
deriving DecidableEq, Repr

/-- The loop of `X963KDF`: `for outlen < length`, with the iterations left as `fuel`. It returns
the output and the counter at loop exit, or `none` when the fuel runs out first. -/
def X963KDF_loop (sharedKeySeed ephemeralPublicKey : Bytes) (length : Nat) :
    Nat → Bytes → Nat → Nat → Option (Bytes × Nat)
  | 0, output, outlen, counter => if outlen < length then none else some (output, counter)
  | fuel+1, output, outlen, counter =>
    if outlen < length then
      let counterBuf := be32 counter
      let output := output ++ sha256 (sharedKeySeed ++ counterBuf ++ ephemeralPublicKey)
      X963KDF_loop sharedKeySeed ephemeralPublicKey length fuel output (outlen + sha256_Size)
        ((counter + 1) % 2^32)
    else some (output, counter)

/-- The function `X963KDF(sharedKeySeed, ephemeralPublicKey)`. Every iteration adds `h.Size()`
to `outlen`, so `length` iterations are enough fuel. -/
def X963KDF (sharedKeySeed ephemeralPublicKey : Bytes) : Bytes :=
  let length := 32
  match X963KDF_loop sharedKeySeed ephemeralPublicKey length length [] 0 1 with
  | some (output, _) => output
  | none => []

/-- The counter-hash expansion as the specification words it: the digests of
`secret || counter || context`, counter on 4 bytes big-endian, for the counters `1, 2, ..., n`,
one after the other. -/
def counterHashStream (secret context : Bytes) (n : Nat) : Bytes :=
  (List.range n).flatMap (fun i => sha256 (secret ++ be32 (i + 1) ++ context))

/-- The reads of `crypto/rand` made by `NewSilverServerConfig`, in order: one for each of the two
key pairs, and the successive reads of the sampling loop of `rand.Int`. -/
structure ServerConfigDraws where
  serverKey : Except String Bytes
  tempClientKey : Except String Bytes
  payloadSizeRandomness : List (Except String Bytes)

/-- The function `NewSilverServerConfig()`. -/
def NewSilverServerConfig (draws : ServerConfigDraws) : Outcome SilverPolishServerConfig :=
  match elliptic_GenerateKey draws.serverKey with
  | .error _ => .err "error generating server private key"
  | .ok (serverPrivateKey, serverX, serverY) =>
    let serverPublicKey := elliptic_Marshal serverX serverY
    match elliptic_GenerateKey draws.tempClientKey with
    | .error _ => .err "error generating temporary client private key"
    | .ok (tempClientPrivateKey, _, _) =>
      let tempSharedKey := P256_ScalarMult serverX serverY tempClientPrivateKey
      let tempSharedKeySeed := elliptic_Marshal tempSharedKey.1 tempSharedKey.2
      let encryptionKey := X963KDF tempSharedKeySeed serverPublicKey
      match chacha20poly1305_New encryptionKey with
      | .error _ => .err "error generating new config"
      | .ok tempCipher =>
        let basePayloadSize : Int := 1024
        match rand_Int draws.payloadSizeRandomness 512 with
        | .panic msg => .panic msg
        | .err _ => .err "error generating random number for ChunkSize"
        | .ok payloadSizeRandomness =>
          let payloadSize := basePayloadSize + int64 payloadSizeRandomness
          let chunkSize := (tempCipher.NonceSize : Int) + (tempCipher.Overhead : Int) + payloadSize
          .ok ⟨serverPublicKey, serverPrivateKey, chunkSize⟩

/-- The function `NewSilverClientConfig(serverConfig)`. The argument is a pointer (`none` is
`nil`); the result carries the pointed-to server config as it is after the call. -/
def NewSilverClientConfig (serverConfig : Option SilverPolishServerConfig) :
    Outcome (SilverPolishClientConfig × SilverPolishServerConfig) :=
  match serverConfig with
  | none => .panic "runtime error: invalid memory address or nil pointer dereference"
  | some sc => .ok (⟨sc.ServerPublicKey, sc.ChunkSize⟩, sc)

/-- The function `NewSilverClient(config)`; `draw` is the read of `crypto/rand` for the
ephemeral key. The server public key is decoded without a check, so an undecodable key reaches
`ScalarMult` as a pair of nil pointers. -/
def NewSilverClient (config : SilverPolishClientConfig) (draw : Except String Bytes) :
    Outcome SilverPolishClient :=
  match elliptic_GenerateKey draw with
  | .error _ => .err "error generating client private key"
  | .ok (clientPrivateKey, clientX, clientY) =>
    let clientPublicKey := elliptic_Marshal clientX clientY
    match elliptic_Unmarshal config.ServerPublicKey with
    | none => .panic "runtime error: invalid memory address or nil pointer dereference"
    | some (serverX, serverY) =>
      let sharedKey := P256_ScalarMult serverX serverY clientPrivateKey
      let sharedKeySeed := elliptic_Marshal sharedKey.1 sharedKey.2
      let encryptionKey := X963KDF sharedKeySeed clientPublicKey
      match chacha20poly1305_New encryptionKey with
      | .error _ => .err "error initializing polish client"
      | .ok polishCipher =>
        .ok ⟨config.ServerPublicKey, config.ChunkSize, clientPublicKey, clientPrivateKey,
          encryptionKey, some polishCipher⟩

/-- The function `NewSilverServer(config)`. -/
def NewSilverServer (config : SilverPolishServerConfig) : Outcome SilverPolishServer :=
  .ok ⟨config.ServerPublicKey, config.ServerPrivateKey, config.ChunkSize, []⟩

/-- The method `NewConnection(conn)`: a connection record with no client key, no shared key and
no cipher, also entered in the registry under `conn`. -/
def SilverPolishServer.NewConnection (config : SilverPolishServer) (conn : Conn) :
    SilverPolishServerConnection × SilverPolishServer :=
  let polishServerConnection : SilverPolishServerConnection :=
    ⟨config.serverPublicKey, config.serverPrivateKey, config.chunkSize, [], [], none⟩
  (polishServerConnection,
    { config with connections :=
        (conn, polishServerConnection) :: config.connections.filter (fun e => e.1 ≠ conn) })

/-- The method `SilverPolishClient.Handshake(conn)`; `draw` is the read of `crypto/rand` that
fills the block. It returns the error (`ok ()` for `nil`) and the connection afterwards. -/
def SilverPolishClient.Handshake (silver : SilverPolishClient) (draw : Except String Bytes)
    (conn : Conn) : Outcome Unit × Conn :=
  let clientPublicKey := silver.clientPublicKey
  match makeBytes silver.chunkSize with
  | .panic m => (.panic m, conn)
  | .err e => (.err e, conn)
  | .ok publicKeyBlock =>
    match rand_Read publicKeyBlock draw with
    | .error readError => (.err readError, conn)
    | .ok publicKeyBlock =>
      let publicKeyBlock := copy publicKeyBlock clientPublicKey
      match conn.Write publicKeyBlock with
      | (some writeError, conn) => (.err writeError, conn)
      | (none, conn) => (.ok (), conn)

/-- The method `SilverPolishClient.Polish(input)`; `draw` is the read of `crypto/rand` for the nonce. -/
def SilverPolishClient.Polish (silver : SilverPolishClient) (input : Bytes)
    (draw : Except String Bytes) : Outcome Bytes :=
  match silver.polishCipher with
  | none => .panic "runtime error: invalid memory address or nil pointer dereference"
  | some polishCipher =>
    let output : Bytes := []
    match rand_Read (List.replicate polishCipher.NonceSize 0) draw with
    | .error readError => .err readError
    | .ok nonce => do
      let sealResult ← polishCipher.Seal output nonce input []
      let result := nonce ++ sealResult
      return result

/-- The method `SilverPolishClient.Unpolish(input)`. -/
def SilverPolishClient.Unpolish (silver : SilverPolishClient) (input : Bytes) : Outcome Bytes :=
  match silver.polishCipher with
  | none => .panic "runtime error: invalid memory address or nil pointer dereference"
  | some polishCipher => do
    let output : Bytes := []
    let nonceSize := polishCipher.NonceSize
    let (nonce, data) ← splitSlice input nonceSize
    let result ← polishCipher.Open output nonce data []
    return result

/-- The method `SilverPolishServerConnection.Handshake(conn)`. It returns the error (`ok ()` for
`nil`), the connection record afterwards and the connection afterwards. -/
def SilverPolishServerConnection.Handshake (silver : SilverPolishServerConnection) (conn : Conn) :
    Outcome Unit × SilverPolishServerConnection × Conn :=
  match makeBytes silver.chunkSize with
  | .panic m => (.panic m, silver, conn)
  | .err e => (.err e, silver, conn)
  | .ok clientPublicKeyBlock =>
    match io_ReadFull conn clientPublicKeyBlock with
    | (.error err, conn) => (.err err, silver, conn)
    | (.ok clientPublicKeyBlock, conn) =>
      let clientPublicKey := List.replicate silverPublicKeySize 0
      if clientPublicKeyBlock.length < silverPublicKeySize then
        (.panic "runtime error: slice bounds out of range", silver, conn)
      else
        let clientPublicKey := copy clientPublicKey (clientPublicKeyBlock.take silverPublicKeySize)
        match elliptic_Unmarshal clientPublicKey with
        | none =>
          (.err "silver server unmarshal error: received a nil response while decoding the client public key",
            silver, conn)
        | some (clientX, clientY) =>
          let sharedKeyPoint := P256_ScalarMult clientX clientY silver.serverPrivateKey
          let sharedKeySeed := elliptic_Marshal sharedKeyPoint.1 sharedKeyPoint.2
          match hkdf_Read sharedKeySeed none [] chacha20poly1305_KeySize with
          | .error readError => (.err readError, silver, conn)
          | .ok sharedKey =>
            match chacha20poly1305_New sharedKey with
            | .error err => (.err err, { silver with polishCipher := none }, conn)
            | .ok polishCipher => (.ok (), { silver with polishCipher := some polishCipher }, conn)

/-- The method `SilverPolishServerConnection.Polish(input)`; `draw` is the read of `crypto/rand`
for the nonce. The value of `Seal` is not kept: `output` is still the nil slice when it is appended
to the nonce. -/
def SilverPolishServerConnection.Polish (silver : SilverPolishServerConnection) (input : Bytes)
    (draw : Except String Bytes) : Outcome Bytes :=
  match silver.polishCipher with
  | none => .panic "runtime error: invalid memory address or nil pointer dereference"
  | some polishCipher =>
    let output : Bytes := []
    match rand_Read (List.replicate polishCipher.NonceSize 0) draw with
    | .error readError => .err readError
    | .ok nonce => do
      let _ ← polishCipher.Seal output nonce input []
      let result := nonce ++ output
      return result

/-- The method `SilverPolishServerConnection.Unpolish(input)`. The value of `Open` is not kept:
`output` is still the nil slice when it is returned. -/
def SilverPolishServerConnection.Unpolish (silver : SilverPolishServerConnection)
    (input : Bytes) : Outcome Bytes :=
  match silver.polishCipher with
  | some polishCipher => do
    let output : Bytes := []
    let nonceSize := polishCipher.NonceSize
    let (nonce, data) ← splitSlice input nonceSize
    let _ ← polishCipher.Open output nonce data []
    return output
  | none => .err "unable to unpolish input, silver.polishCipher is nil"

/-! ## A run of the handshake end to end -/

/-- One run of the handshake over a pipe: the server config is generated, the client config is
derived from it, the client is built, the server opens a connection record, the client handshake
writes to the pipe and the server handshake reads what was written. The result is the cipher of
the client and the cipher of the server connection after the two handshakes. -/
def handshakeRun (draws : ServerConfigDraws) (clientKey fill : Except String Bytes) :
    Outcome (Option AEAD × Option AEAD) := do
  let serverConfig ← NewSilverServerConfig draws
  let (clientConfig, serverConfig) ← NewSilverClientConfig (some serverConfig)
  let client ← NewSilverClient clientConfig clientKey
  let server ← NewSilverServer serverConfig
  let clientSide : Conn := ⟨[], [], none⟩
  let (clientResult, clientSide) := client.Handshake fill clientSide
  clientResult
  let serverSide : Conn := ⟨clientSide.written.flatten, [], none⟩
  let (connection, _) := server.NewConnection serverSide
  let (serverResult, connection, _) := connection.Handshake serverSide
  serverResult
  return (client.polishCipher, connection.polishCipher)

/-! ## Sample values -/

/-- A private scalar for the server (32 bytes, below the order of the base point). -/
def sampleServerKey : Bytes :=
  [0xb3, 0xea, 0xcd, 0x33, 0x43, 0x3b, 0x31, 0xb5, 0x25, 0x23, 0x51, 0x03, 0x2c, 0x9b, 0x3e, 0x7a,
   0x2e, 0x7a, 0xa7, 0x73, 0x8d, 0x5d, 0xec, 0xdf, 0x0d, 0xd6, 0xc6, 0x26, 0x80, 0x85, 0x3c, 0x06]

/-- A private scalar for the throwaway key pair of the config generator. -/
def sampleTempKey : Bytes :=
  [0xa6, 0x86, 0x4e, 0xb3, 0x39, 0xb0, 0xe1, 0xf6, 0xe0, 0x0d, 0x75, 0x29, 0x3a, 0x88, 0x40, 0xab,
   0xf0, 0x69, 0xa2, 0xc0, 0xfe, 0x82, 0xe6, 0xe5, 0x3a, 0xf6, 0xac, 0x09, 0x97, 0x93, 0xc1, 0xd5]

/-- A private scalar for the client. -/
def sampleClientKey : Bytes :=
  [0x94, 0x8f, 0xe6, 0x03, 0xf6, 0x1d, 0xc0, 0x36, 0xb5, 0xc5, 0x96, 0xdc, 0x09, 0xfe, 0x3c, 0xe3,
   0xf3, 0xd3, 0x0d, 0xc9, 0x0f, 0x02, 0x4c, 0x85, 0xf3, 0xc8, 0x2d, 0xb2, 0xcc, 0xab, 0x67, 0x9d]

/-- The public point of the sample server scalar. -/
def sampleServerPoint : Nat × Nat := P256_ScalarBaseMult sampleServerKey

/-- The public point of the sample client scalar. -/
def sampleClientPoint : Nat × Nat := P256_ScalarBaseMult sampleClientKey

/-- The shared point as the client computes it: its scalar times the server point. -/
def sampleSharedPoint : Nat × Nat :=
  P256_ScalarMult sampleServerPoint.1 sampleServerPoint.2 sampleClientKey

/-- A 32-byte cipher key. -/
def sampleCipherKey : Bytes := (List.range 32).map (· + 0x80)

/-- A 12-byte nonce. -/
def sampleNonce : Bytes := [7, 0, 0, 0, 0x40, 0x41, 0x42, 0x43, 0x44, 0x45, 0x46, 0x47]

/-- A client whose cipher is keyed by the sample key. -/
def sampleClient : SilverPolishClient :=
  ⟨[], 1052, [], [], sampleCipherKey, some ⟨sampleCipherKey⟩⟩

/-- A server connection whose cipher is keyed by the sample key. -/
def sampleServerConnection : SilverPolishServerConnection :=
  ⟨[], [], 1052, [], [], some ⟨sampleCipherKey⟩⟩

/-- A 65-byte string that starts with the tag of an uncompressed point. -/
def samplePublicKey : Bytes := 4 :: (List.range 64).map (· + 1)

/-- A client about to shake hands with chunk size 70. -/
def sampleHandshakeClient : SilverPolishClient :=
  ⟨[], 70, samplePublicKey, [], [], none⟩

/-- A random fill of 70 bytes. -/
def sampleFill : Bytes := (List.range 70).map (· + 100)

/-- A fresh server connection with chunk size 70 and the sample server key. -/
def sampleFreshConnection : SilverPolishServerConnection :=
  (SilverPolishServer.NewConnection ⟨[], sampleServerKey, 70, []⟩ ⟨[], [], none⟩).1

end Silver

/-! ## `toneburst.go` -/

namespace Toneburst

/-- Modelled from the spec: the struct `Config` of package `toneburst` is declared outside the
files at hand; it has the selector tag and one nested, `nil`-able config per strategy, which are
the three fields `New` reads. The nested config types are parameters. -/
structure Config (W M : Type) where
  Selector : String
  Whalesong : Option W
  Monolith : Option M

/-- The function `New(config)`. The argument is a pointer (`none` is `nil`); the result is the
interface value `ToneBurst` (`none` is `nil`). The two strategy constructors are declared outside
the files at hand and are parameters. -/
def New {W M T : Type} (NewWhalesong : W → T) (NewMonolith : M → T)
    (config : Option (Config W M)) : Option T :=
  match config with
  | none => none
  | some config =>
    if config.Selector = "whalesong" then
      match config.Whalesong with
      | none => none
      | some w => some (NewWhalesong w)
    else if config.Selector = "monolith" then
      match config.Monolith with
      | none => none
      | some m => some (NewMonolith m)
    else none

end Toneburst


/-! ## Properties -/

namespace Silver

/-! ### Hashing and key derivation: `X963KDF` (C9) -/

/-- A SHA-256 digest has `h.Size()` bytes. -/
theorem sha256_length (msg : Bytes) : (sha256 msg).length = sha256_Size := by
  unfold sha256 sha256_Size
  simp only [be32, List.length_append, List.length_cons, List.length_nil]

/-- The loop of `X963KDF` exits after its first iteration, whatever fuel is left. -/
theorem X963KDF_loop_once (s c : Bytes) (fuel : Nat) :
    X963KDF_loop s c 32 (fuel + 1) [] 0 1 = some (sha256 (s ++ be32 1 ++ c), 2) := by
  have h1 : (0 : Nat) < 32 := by decide
  have h2 : ¬ ((0 + sha256_Size : Nat) < 32) := by decide
  have h3 : (1 + 1) % 2 ^ 32 = 2 := by decide
  cases fuel with
  | zero => rw [X963KDF_loop, if_pos h1, X963KDF_loop, if_neg h2, h3, List.nil_append]
  | succ n => rw [X963KDF_loop, if_pos h1, X963KDF_loop, if_neg h2, h3, List.nil_append]

/-- The key derived by `X963KDF` is one SHA-256 digest. -/
theorem X963KDF_eq (s c : Bytes) : X963KDF s c = sha256 (s ++ be32 1 ++ c) := by
  have h : X963KDF_loop s c 32 32 [] 0 1 = some (sha256 (s ++ be32 1 ++ c), 2) :=
    X963KDF_loop_once s c 31
  unfold X963KDF
  simp only [h]

/-- The key derived by `X963KDF` has the key size of the cipher. -/
theorem X963KDF_length (s c : Bytes) : (X963KDF s c).length = 32 := by
  rw [X963KDF_eq]; exact sha256_length _

/-- C9: for every secret and context, `X963KDF` returns exactly 32 bytes; they are the first 32
bytes of the stream SHA-256(secret || 00000001 || context), SHA-256(secret || 00000002 || context),
and so on, however far the stream is continued; the loop exits after one iteration (with enough
fuel it returns, the counter standing at 2); so the result is SHA-256(secret || 00000001 ||
context), a function of the secret and the context alone. -/
theorem X963KDF_counter_hash (secret context : Bytes) :
    (X963KDF secret context).length = 32 ∧
    (∀ n, X963KDF secret context = (counterHashStream secret context (n + 1)).take 32) ∧
    (∀ fuel, X963KDF_loop secret context 32 (fuel + 1) [] 0 1
      = some (sha256 (secret ++ [0, 0, 0, 1] ++ context), 2)) ∧
    X963KDF secret context = sha256 (secret ++ [0, 0, 0, 1] ++ context) := by
  have hbe : be32 1 = [0, 0, 0, 1] := by decide
  refine ⟨X963KDF_length secret context, ?_, ?_, ?_⟩
  · intro n
    rw [X963KDF_eq]
    unfold counterHashStream
    rw [List.range_succ_eq_map, List.flatMap_cons]
    exact (List.take_left' (sha256_length _)).symm
  · intro fuel
    rw [← hbe]
    exact X963KDF_loop_once secret context fuel
  · rw [← hbe]
    exact X963KDF_eq secret context

/-! ### The config generator (C5, C10) -/

/-- A key derived by `X963KDF` is accepted by `chacha20poly1305.New`. -/
theorem chacha20poly1305_New_X963KDF (s c : Bytes) :
    chacha20poly1305_New (X963KDF s c) = .ok ⟨X963KDF s c⟩ := by
  unfold chacha20poly1305_New
  rw [if_neg]
  rw [X963KDF_length]
  decide

/-- The conversion `int(v.Int64())` is the identity on small numbers. -/
theorem int64_small (r : Nat) (h : r < 2 ^ 63) : int64 r = (r : Int) := by
  unfold int64
  have h1 : r % 2 ^ 64 = r := Nat.mod_eq_of_lt (by omega)
  rw [h1, if_pos h]

/-- The sampling loop of `rand.Int` returns only numbers below `max`. -/
theorem rand_Int_loop_lt (max k b : Nat) (reads : List (Except String Bytes)) (r : Nat)
    (h : rand_Int_loop max k b reads = .ok r) : r < max := by
  induction reads with
  | nil => rw [rand_Int_loop] at h; cases h
  | cons read rest ih =>
    rw [rand_Int_loop] at h
    cases hread : rand_Read (List.replicate k 0) read with
    | error err => rw [hread] at h; cases h
    | ok bytes =>
      rw [hread] at h
      simp only at h
      split at h
      · rename_i hlt
        cases h
        exact hlt
      · exact ih h

/-- The function `rand.Int` returns only numbers below `max`. -/
theorem rand_Int_lt (reads : List (Except String Bytes)) (max : Int) (r : Nat)
    (h : rand_Int reads max = .ok r) : (r : Int) < max := by
  unfold rand_Int at h
  split at h
  · cases h
  · rename_i hmax
    simp only at h
    split at h
    · cases h
      omega
    · have := rand_Int_loop_lt _ _ _ _ _ h
      omega

/-- When the key pairs are drawn and `rand.Int` returns `r`, `NewSilverServerConfig` returns a
config: the public key of the private scalar drawn, that scalar, and the chunk size. -/
theorem NewSilverServerConfig_ok (k1 k2 : Bytes) (reads : List (Except String Bytes)) (r : Nat)
    (hr : rand_Int reads 512 = .ok r) :
    NewSilverServerConfig ⟨.ok k1, .ok k2, reads⟩ =
      .ok ⟨elliptic_Marshal (P256_ScalarBaseMult k1).1 (P256_ScalarBaseMult k1).2, k1,
        (chacha20poly1305_NonceSize : Int) + (chacha20poly1305_Overhead : Int) + (1024 + int64 r)⟩ := by
  unfold NewSilverServerConfig
  simp only [elliptic_GenerateKey, hr, chacha20poly1305_New_X963KDF, AEAD.NonceSize,
    AEAD.Overhead]

/-- When `NewSilverServerConfig` returns a config, both key pairs were drawn and `rand.Int`
returned a number; the chunk size is built from that number. -/
theorem NewSilverServerConfig_inv (draws : ServerConfigDraws) (cfg : SilverPolishServerConfig)
    (h : NewSilverServerConfig draws = .ok cfg) :
    ∃ r, rand_Int draws.payloadSizeRandomness 512 = .ok r ∧
      cfg.ChunkSize =
        (chacha20poly1305_NonceSize : Int) + (chacha20poly1305_Overhead : Int) + (1024 + int64 r) := by
  obtain ⟨d1, d2, reads⟩ := draws
  cases d1 with
  | error e1 =>
    have he : NewSilverServerConfig ⟨.error e1, d2, reads⟩
        = .err "error generating server private key" := rfl
    rw [he] at h; cases h
  | ok k1 =>
    cases d2 with
    | error e2 =>
      have he : NewSilverServerConfig ⟨.ok k1, .error e2, reads⟩
          = .err "error generating temporary client private key" := rfl
      rw [he] at h; cases h
    | ok k2 =>
      cases hr : rand_Int reads 512 with
      | ok r =>
        rw [NewSilverServerConfig_ok k1 k2 reads r hr] at h
        refine ⟨r, rfl, ?_⟩
        cases h
        rfl
      | err e =>
        unfold NewSilverServerConfig at h
        simp only [elliptic_GenerateKey, hr, chacha20poly1305_New_X963KDF] at h
        cases h
      | panic m =>
        unfold NewSilverServerConfig at h
        simp only [elliptic_GenerateKey, hr, chacha20poly1305_New_X963KDF] at h
        cases h

/-- C5: whenever `NewSilverServerConfig` returns a config, whatever the reads of `crypto/rand`
were, its chunk size `c` satisfies `1024 + overhead <= c < 1536 + overhead` with
`overhead = 12 + 16`, that is `1052 <= c <= 1563`, and so `c >= 65 + 12 + 16`. -/
theorem NewSilverServerConfig_chunkSize (draws : ServerConfigDraws) (cfg : SilverPolishServerConfig)
    (h : NewSilverServerConfig draws = .ok cfg) :
    1024 + ((chacha20poly1305_NonceSize : Int) + chacha20poly1305_Overhead) ≤ cfg.ChunkSize ∧
    cfg.ChunkSize < 1536 + ((chacha20poly1305_NonceSize : Int) + chacha20poly1305_Overhead) ∧
    1052 ≤ cfg.ChunkSize ∧ cfg.ChunkSize ≤ 1563 ∧
    (silverPublicKeySize : Int) + chacha20poly1305_NonceSize + chacha20poly1305_Overhead
      ≤ cfg.ChunkSize := by
  obtain ⟨r, hr, hc⟩ := NewSilverServerConfig_inv draws cfg h
  have hlt : (r : Int) < 512 := rand_Int_lt _ _ _ hr
  have hr512 : r < 512 := by omega
  rw [int64_small r (by omega)] at hc
  have h12 : (chacha20poly1305_NonceSize : Int) = 12 := rfl
  have h16 : (chacha20poly1305_Overhead : Int) = 16 := rfl
  have h65 : (silverPublicKeySize : Int) = 65 := by decide
  rw [hc, h12, h16, h65]
  omega

/-- With two bytes `ff ff` read by `rand.Int`, the number drawn is 511, the largest one. -/
theorem rand_Int_sample_max : rand_Int [.ok [0xff, 0xff]] 512 = .ok 511 := by
  decide!

/-- With two bytes `00 00` read by `rand.Int`, the number drawn is 0. -/
theorem rand_Int_sample_min : rand_Int [.ok [0, 0]] 512 = .ok 0 := by
  decide!

/-- The bounds of C5 at concrete draws, with the largest number `rand.Int` can draw: the config
is returned and its chunk size is 1563. -/
theorem NewSilverServerConfig_chunkSize_witness :
    ∃ cfg, NewSilverServerConfig ⟨.ok sampleServerKey, .ok sampleTempKey, [.ok [0xff, 0xff]]⟩
        = .ok cfg ∧
      cfg.ChunkSize = 1563 ∧ 1052 ≤ cfg.ChunkSize ∧ cfg.ChunkSize ≤ 1563 :=
  ⟨_, NewSilverServerConfig_ok sampleServerKey sampleTempKey _ 511 rand_Int_sample_max,
   by decide,
   (NewSilverServerConfig_chunkSize ⟨.ok sampleServerKey, .ok sampleTempKey, [.ok [0xff, 0xff]]⟩ _
      (NewSilverServerConfig_ok sampleServerKey sampleTempKey _ 511 rand_Int_sample_max)).2.2.1,
   (NewSilverServerConfig_chunkSize ⟨.ok sampleServerKey, .ok sampleTempKey, [.ok [0xff, 0xff]]⟩ _
      (NewSilverServerConfig_ok sampleServerKey sampleTempKey _ 511 rand_Int_sample_max)).2.2.2.1⟩

/-- The lower bound of C5 is reached: with the number 0 drawn, the chunk size is 1052. -/
theorem NewSilverServerConfig_chunkSize_min :
    ∃ cfg, NewSilverServerConfig ⟨.ok sampleServerKey, .ok sampleTempKey, [.ok [0, 0]]⟩ = .ok cfg ∧
      cfg.ChunkSize = 1052 :=
  ⟨_, NewSilverServerConfig_ok sampleServerKey sampleTempKey _ 0 rand_Int_sample_min, by decide⟩

/-- C10: for every server config, `NewSilverClientConfig` succeeds; the client config has the
server public key and the chunk size of the server config; it is the same client config when the
private key of the server config is replaced by any other; and the server config is as before. -/
theorem NewSilverClientConfig_copies (s : SilverPolishServerConfig) (otherPrivateKey : Bytes) :
    ∃ c : SilverPolishClientConfig,
      NewSilverClientConfig (some s) = .ok (c, s) ∧
      c.ServerPublicKey = s.ServerPublicKey ∧ c.ChunkSize = s.ChunkSize ∧
      NewSilverClientConfig (some { s with ServerPrivateKey := otherPrivateKey })
        = .ok (c, { s with ServerPrivateKey := otherPrivateKey }) :=
  ⟨⟨s.ServerPublicKey, s.ChunkSize⟩, rfl, rfl, rfl, rfl⟩

/-! ### The client handshake (C7) -/

/-- The package variable `silverPublicKeySize` is 65. -/
theorem silverPublicKeySize_eq : silverPublicKeySize = 65 := by decide

/-- Copying a source as long as the destination replaces the destination. -/
theorem copy_full (dst src : Bytes) (h : src.length = dst.length) : copy dst src = src := by
  unfold copy
  rw [List.drop_of_length_le (by omega), List.take_of_length_le (by omega), List.append_nil]

/-- Copying a shorter source overwrites a leading segment of the destination. -/
theorem copy_short (dst src : Bytes) (h : src.length ≤ dst.length) :
    copy dst src = src ++ dst.drop src.length := by
  unfold copy
  rw [List.take_of_length_le h]

/-- The block written by the client handshake: the random fill with the public key copied over
its first bytes. -/
theorem SilverPolishClient_Handshake_eq (silver : SilverPolishClient) (fill : Bytes) (conn : Conn)
    (hC : 0 ≤ silver.chunkSize) (hfill : (fill.length : Int) = silver.chunkSize) :
    silver.Handshake (.ok fill) conn =
      ((match conn.writeError with | some e => Outcome.err e | none => Outcome.ok ()),
        { conn with written := conn.written ++ [copy fill silver.clientPublicKey] }) := by
  have hmk : makeBytes silver.chunkSize = .ok (List.replicate silver.chunkSize.toNat 0) := by
    unfold makeBytes
    rw [if_neg (by omega)]
  have hlen : fill.length = (List.replicate silver.chunkSize.toNat 0).length := by
    rw [List.length_replicate]; omega
  unfold SilverPolishClient.Handshake
  simp only [hmk, rand_Read, copy_full _ _ hlen, Conn.Write]
  cases conn.writeError <;> rfl

/-- C7: for a client with chunk size `C >= 65` and a 65-byte public key `K`, and every random fill
of `C` bytes, a successful `Handshake` adds exactly one buffer to the writes of the connection; the
buffer has `C` bytes, its bytes `[0, 65)` are `K` and its bytes `[65, C)` are those of the fill. -/
theorem SilverPolishClient_Handshake_frame (silver : SilverPolishClient) (fill : Bytes)
    (conn conn' : Conn)
    (hC : 65 ≤ silver.chunkSize) (hK : silver.clientPublicKey.length = 65)
    (hfill : (fill.length : Int) = silver.chunkSize)
    (h : silver.Handshake (.ok fill) conn = (.ok (), conn')) :
    ∃ block : Bytes, conn'.written = conn.written ++ [block] ∧
      (block.length : Int) = silver.chunkSize ∧
      block.take 65 = silver.clientPublicKey ∧ block.drop 65 = fill.drop 65 ∧
      conn'.incoming = conn.incoming := by
  rw [SilverPolishClient_Handshake_eq silver fill conn (by omega) hfill] at h
  have hconn : conn' = { conn with written := conn.written ++ [copy fill silver.clientPublicKey] } :=
    (congrArg Prod.snd h).symm
  have hle : silver.clientPublicKey.length ≤ fill.length := by omega
  refine ⟨copy fill silver.clientPublicKey, by rw [hconn], ?_, ?_, ?_, by rw [hconn]⟩
  · rw [copy_short _ _ hle, List.length_append, List.length_drop]
    omega
  · rw [copy_short _ _ hle]
    exact List.take_left' hK
  · rw [copy_short _ _ hle, hK]
    exact List.drop_left' hK

/-- The frame of C7 at a concrete client: chunk size 70, a 65-byte key and a 70-byte fill. -/
theorem SilverPolishClient_Handshake_frame_witness :
    sampleHandshakeClient.Handshake (.ok sampleFill) ⟨[], [], none⟩
      = (.ok (), ⟨[], [samplePublicKey ++ [165, 166, 167, 168, 169]], none⟩) ∧
    ∃ block : Bytes,
      (⟨[], [samplePublicKey ++ [165, 166, 167, 168, 169]], none⟩ : Conn).written = [] ++ [block] ∧
      (block.length : Int) = sampleHandshakeClient.chunkSize ∧
      block.take 65 = sampleHandshakeClient.clientPublicKey ∧
      block.drop 65 = sampleFill.drop 65 ∧
      (⟨[], [samplePublicKey ++ [165, 166, 167, 168, 169]], none⟩ : Conn).incoming = [] :=
  ⟨by decide!,
   SilverPolishClient_Handshake_frame sampleHandshakeClient sampleFill ⟨[], [], none⟩ _
     (by decide!) (by decide!) (by decide!) (by decide!)⟩

/-! ### The server handshake (C8) -/

/-- An HMAC-SHA-256 value has 32 bytes. -/
theorem hmac_sha256_length (key msg : Bytes) : (hmac_sha256 key msg).length = 32 := by
  unfold hmac_sha256
  exact sha256_length _

/-- Reading 32 bytes from the HKDF reader with nil salt and nil info gives the first block of the
expansion, and never fails. -/
theorem hkdf_Read_key (secret : Bytes) :
    hkdf_Read secret none [] chacha20poly1305_KeySize
      = .ok (hmac_sha256 (hkdf_Extract secret none) [1]) := by
  have hn : ¬ (255 * sha256_Size < chacha20poly1305_KeySize) := by decide
  have hb : (chacha20poly1305_KeySize + sha256_Size - 1) / sha256_Size = 0 + 1 := by decide
  have hk : chacha20poly1305_KeySize = 32 := rfl
  unfold hkdf_Read
  rw [if_neg hn, hb, hkdf_blocks, hkdf_blocks, List.append_nil, List.nil_append, List.nil_append, hk]
  rw [List.take_of_length_le (by rw [hmac_sha256_length])]

/-- The key read from the HKDF reader is accepted by `chacha20poly1305.New`. -/
theorem chacha20poly1305_New_hmac (key msg : Bytes) :
    chacha20poly1305_New (hmac_sha256 key msg) = .ok ⟨hmac_sha256 key msg⟩ := by
  unfold chacha20poly1305_New
  rw [if_neg]
  rw [hmac_sha256_length]
  decide

/-- The server handshake on a connection that delivers a frame of `chunkSize >= 65` bytes: the
frame is consumed, and the outcome is decided by the first 65 bytes alone. -/
theorem SilverPolishServerConnection_Handshake_eq (silver : SilverPolishServerConnection)
    (frame rest : Bytes) (w : List Bytes) (e : Option String)
    (hC : 65 ≤ silver.chunkSize) (hf : (frame.length : Int) = silver.chunkSize) :
    silver.Handshake ⟨frame ++ rest, w, e⟩ =
      match elliptic_Unmarshal (frame.take 65) with
      | none =>
        (.err "silver server unmarshal error: received a nil response while decoding the client public key",
          silver, ⟨rest, w, e⟩)
      | some (clientX, clientY) =>
        (.ok (),
          { silver with polishCipher := some ⟨hmac_sha256 (hkdf_Extract
              (elliptic_Marshal (P256_ScalarMult clientX clientY silver.serverPrivateKey).1
                (P256_ScalarMult clientX clientY silver.serverPrivateKey).2) none) [1]⟩ },
          ⟨rest, w, e⟩) := by
  have hmk : makeBytes silver.chunkSize = .ok (List.replicate silver.chunkSize.toNat 0) := by
    unfold makeBytes
    rw [if_neg (by omega)]
  have hlen : frame.length = silver.chunkSize.toNat := by omega
  have hread : io_ReadFull ⟨frame ++ rest, w, e⟩ (List.replicate silver.chunkSize.toNat 0)
      = (.ok frame, ⟨rest, w, e⟩) := by
    unfold io_ReadFull
    simp only [List.length_replicate, List.length_append]
    rw [if_pos (by omega), List.take_left' hlen, List.drop_left' hlen]
  have hnot : ¬ (frame.length < silverPublicKeySize) := by
    rw [silverPublicKeySize_eq]; omega
  have hcopy : copy (List.replicate silverPublicKeySize 0) (frame.take silverPublicKeySize)
      = frame.take 65 := by
    rw [silverPublicKeySize_eq]
    apply copy_full
    rw [List.length_replicate, List.length_take]
    omega
  unfold SilverPolishServerConnection.Handshake
  simp only [hmk, hread, if_neg hnot, hcopy]
  cases elliptic_Unmarshal (frame.take 65) with
  | none => rfl
  | some q =>
    obtain ⟨clientX, clientY⟩ := q
    simp only [hkdf_Read_key, chacha20poly1305_New_hmac]

/-- C8: for a chunk size `C >= 65`, two `C`-byte frames that agree on their first 65 bytes give
the server handshake the same outcome and leave the same connection record (so the same cipher
key), whatever their padding, the bytes that follow them and the rest of the connection are; and
when the 65 bytes do not decode to a point of the curve, the handshake returns an error and the
connection record, its cipher included, is as it was. -/
theorem SilverPolishServerConnection_Handshake_first65 (silver : SilverPolishServerConnection)
    (f1 f2 rest1 rest2 : Bytes) (w1 w2 : List Bytes) (e1 e2 : Option String)
    (hC : 65 ≤ silver.chunkSize)
    (h1 : (f1.length : Int) = silver.chunkSize) (h2 : (f2.length : Int) = silver.chunkSize)
    (hp : f1.take 65 = f2.take 65) :
    (silver.Handshake ⟨f1 ++ rest1, w1, e1⟩).1 = (silver.Handshake ⟨f2 ++ rest2, w2, e2⟩).1 ∧
    (silver.Handshake ⟨f1 ++ rest1, w1, e1⟩).2.1 = (silver.Handshake ⟨f2 ++ rest2, w2, e2⟩).2.1 ∧
    (elliptic_Unmarshal (f1.take 65) = none →
      (∃ err, (silver.Handshake ⟨f1 ++ rest1, w1, e1⟩).1 = .err err) ∧
      (silver.Handshake ⟨f1 ++ rest1, w1, e1⟩).2.1 = silver ∧
      (silver.Handshake ⟨f1 ++ rest1, w1, e1⟩).2.1.polishCipher = silver.polishCipher) := by
  rw [SilverPolishServerConnection_Handshake_eq silver f1 rest1 w1 e1 hC h1,
    SilverPolishServerConnection_Handshake_eq silver f2 rest2 w2 e2 hC h2, ← hp]
  cases elliptic_Unmarshal (f1.take 65) with
  | none => exact ⟨rfl, rfl, fun _ => ⟨⟨_, rfl⟩, rfl, rfl⟩⟩
  | some q =>
    obtain ⟨clientX, clientY⟩ := q
    exact ⟨rfl, rfl, fun h => by cases h⟩

set_option maxRecDepth 100000 in
/-- The statement of C8 at two concrete 70-byte frames with the same first 65 bytes and different
padding; the 65 bytes are no point of the curve, so both handshakes fail with the same error and
the fresh connection keeps no cipher. -/
theorem SilverPolishServerConnection_Handshake_first65_witness :
    (sampleFreshConnection.Handshake ⟨(samplePublicKey ++ [1, 2, 3, 4, 5]) ++ [], [], none⟩).1
      = (sampleFreshConnection.Handshake ⟨(samplePublicKey ++ [9, 9, 9, 9, 9]) ++ [7], [[1]], some "closed"⟩).1 ∧
    (sampleFreshConnection.Handshake ⟨(samplePublicKey ++ [1, 2, 3, 4, 5]) ++ [], [], none⟩).2.1
      = (sampleFreshConnection.Handshake ⟨(samplePublicKey ++ [9, 9, 9, 9, 9]) ++ [7], [[1]], some "closed"⟩).2.1 ∧
    (∃ err, (sampleFreshConnection.Handshake ⟨(samplePublicKey ++ [1, 2, 3, 4, 5]) ++ [], [], none⟩).1
      = .err err) ∧
    (sampleFreshConnection.Handshake
      ⟨(samplePublicKey ++ [1, 2, 3, 4, 5]) ++ [], [], none⟩).2.1.polishCipher = none :=
  have h := SilverPolishServerConnection_Handshake_first65 sampleFreshConnection
    (samplePublicKey ++ [1, 2, 3, 4, 5]) (samplePublicKey ++ [9, 9, 9, 9, 9]) [] [7] [] [[1]]
    none (some "closed") (by decide!) (by decide!) (by decide!) (by decide!)
  have hnone : sampleFreshConnection.polishCipher = none := by decide!
  ⟨h.1, h.2.1, (h.2.2 (by decide!)).1, (h.2.2 (by decide!)).2.2.trans hnone⟩

/-! ### The record cipher -/

/-- A little-endian encoding on `n` bytes has `n` bytes. -/
theorem toLE_length (n v : Nat) : (toLE n v).length = n := by
  induction n generalizing v with
  | zero => rfl
  | succ n ih => rw [toLE, List.length_cons, ih]

/-- A byte string of `4 * n` bytes has `n` little-endian words. -/
theorem wordsLE_length (n : Nat) (b : Bytes) (h : b.length = 4 * n) : (wordsLE b).length = n := by
  induction n generalizing b with
  | zero =>
    cases b with
    | nil => rfl
    | cons x xs => simp at h
  | succ n ih =>
    match b, h with
    | x0 :: x1 :: x2 :: x3 :: rest, h =>
      rw [wordsLE, List.length_cons, ih rest (by simp only [List.length_cons] at h; omega)]
    | [], h => simp only [List.length_nil] at h; omega
    | [_], h => simp only [List.length_cons, List.length_nil] at h; omega
    | [_, _], h => simp only [List.length_cons, List.length_nil] at h; omega
    | [_, _, _], h => simp only [List.length_cons, List.length_nil] at h; omega

/-- The quarter round keeps the number of words of the state. -/
theorem quarterRound_length (s : List Nat) (a b c d : Nat) :
    (quarterRound s a b c d).length = s.length := by
  unfold quarterRound
  simp only [List.length_set]

/-- The double round keeps the number of words of the state. -/
theorem doubleRound_length (s : List Nat) : (doubleRound s).length = s.length := by
  unfold doubleRound
  simp only [quarterRound_length]

/-- Iterating the double round keeps the number of words of the state. -/
theorem iter_doubleRound_length (n : Nat) (s : List Nat) :
    (iter doubleRound n s).length = s.length := by
  induction n generalizing s with
  | zero => rfl
  | succ n ih => rw [iter, ih, doubleRound_length]

/-- Serialising `n` words gives `4 * n` bytes. -/
theorem flatMap_toLE_length (l : List Nat) : (l.flatMap (toLE 4)).length = 4 * l.length := by
  induction l with
  | nil => rfl
  | cons x xs ih =>
    rw [List.flatMap_cons, List.length_append, ih, toLE_length, List.length_cons]
    omega

/-- With a 32-byte key and a 12-byte nonce, a ChaCha20 block is 64 bytes of key stream. -/
theorem chacha20_block_length (key nonce : Bytes) (counter : Nat)
    (hk : key.length = 32) (hn : nonce.length = 12) :
    (chacha20_block key nonce counter).length = 64 := by
  unfold chacha20_block
  simp only [flatMap_toLE_length, List.length_zipWith, iter_doubleRound_length,
    List.length_append, List.length_cons, List.length_nil,
    wordsLE_length 8 key (by omega), wordsLE_length 3 nonce (by omega)]
  decide

/-- With a 32-byte key and a 12-byte nonce, `n` blocks of key stream are `64 * n` bytes. -/
theorem chacha20_stream_length (key nonce : Bytes) (n counter : Nat)
    (hk : key.length = 32) (hn : nonce.length = 12) :
    (chacha20_stream key nonce n counter).length = 64 * n := by
  induction n generalizing counter with
  | zero => rfl
  | succ n ih =>
    rw [chacha20_stream, List.length_append, ih, chacha20_block_length key nonce counter hk hn]
    omega

/-- XOR with a key stream at least as long as the data keeps the length of the data. -/
theorem zipWith_xor_length (p ks : List Nat) (h : p.length ≤ ks.length) :
    (List.zipWith (· ^^^ ·) p ks).length = p.length := by
  rw [List.length_zipWith]
  omega

/-- XOR with the same key stream twice gives the data back. -/
theorem zipWith_xor_cancel (p ks : List Nat) (h : p.length ≤ ks.length) :
    List.zipWith (· ^^^ ·) (List.zipWith (· ^^^ ·) p ks) ks = p := by
  induction p generalizing ks with
  | nil => rfl
  | cons x xs ih =>
    cases ks with
    | nil => simp only [List.length_cons, List.length_nil] at h; omega
    | cons k ks =>
      simp only [List.zipWith_cons_cons]
      rw [ih ks (by simp only [List.length_cons] at h; omega), Nat.xor_assoc, Nat.xor_self,
        Nat.xor_zero]

/-- With a 32-byte key and a 12-byte nonce, the ChaCha20 XOR keeps the length of the data. -/
theorem chacha20_xor_length (key nonce data : Bytes) (counter : Nat)
    (hk : key.length = 32) (hn : nonce.length = 12) :
    (chacha20_xor key nonce counter data).length = data.length := by
  unfold chacha20_xor
  apply zipWith_xor_length
  rw [chacha20_stream_length key nonce _ counter hk hn]
  omega

/-- With a 32-byte key and a 12-byte nonce, the ChaCha20 XOR is its own inverse. -/
theorem chacha20_xor_involutive (key nonce data : Bytes) (counter : Nat)
    (hk : key.length = 32) (hn : nonce.length = 12) :
    chacha20_xor key nonce counter (chacha20_xor key nonce counter data) = data := by
  have hlen := chacha20_xor_length key nonce data counter hk hn
  have hks : data.length ≤ (chacha20_stream key nonce ((data.length + 63) / 64) counter).length := by
    rw [chacha20_stream_length key nonce _ counter hk hn]
    omega
  have h1 : chacha20_xor key nonce counter (chacha20_xor key nonce counter data)
      = List.zipWith (· ^^^ ·) (chacha20_xor key nonce counter data)
          (chacha20_stream key nonce ((data.length + 63) / 64) counter) := by
    rw [chacha20_xor, hlen]
  rw [h1]
  unfold chacha20_xor
  exact zipWith_xor_cancel _ _ hks

/-- The tag of the AEAD construction has 16 bytes. -/
theorem aead_tag_length (key nonce ad ct : Bytes) : (aead_tag key nonce ad ct).length = 16 := by
  unfold aead_tag poly1305
  exact toLE_length _ _

/-- The value of `Seal` for a 12-byte nonce and a plaintext within the size limit: the destination,
the ciphertext, the tag. -/
theorem AEAD_Seal_eq (c : AEAD) (dst nonce pt ad : Bytes)
    (hn : nonce.length = 12) (hp : pt.length ≤ 2 ^ 38 - 64) :
    c.Seal dst nonce pt ad
      = .ok (dst ++ chacha20_xor c.key nonce 1 pt
          ++ aead_tag c.key nonce ad (chacha20_xor c.key nonce 1 pt)) := by
  have h1 : ¬ (nonce.length ≠ chacha20poly1305_NonceSize) := by
    rw [hn]; decide
  have h2 : ¬ (2 ^ 38 - 64 < pt.length) := by omega
  unfold AEAD.Seal
  rw [if_neg h1, if_neg h2]

/-- The value of `Open` on a ciphertext followed by its own tag. -/
theorem AEAD_Open_eq (c : AEAD) (dst nonce ct tag ad : Bytes)
    (hn : nonce.length = 12) (ht : tag.length = 16) (hl : ct.length ≤ 2 ^ 38 - 64)
    (htag : aead_tag c.key nonce ad ct = tag) :
    c.Open dst nonce (ct ++ tag) ad = .ok (dst ++ chacha20_xor c.key nonce 1 ct) := by
  have h1 : ¬ (nonce.length ≠ chacha20poly1305_NonceSize) := by
    rw [hn]; decide
  have hlen : (ct ++ tag).length - 16 = ct.length := by
    rw [List.length_append, ht]; omega
  have h2 : ¬ ((ct ++ tag).length < 16) := by
    rw [List.length_append, ht]; omega
  have h3 : ¬ (2 ^ 38 - 48 < (ct ++ tag).length) := by
    rw [List.length_append, ht]; omega
  unfold AEAD.Open
  rw [if_neg h1, if_neg h2, if_neg h3]
  simp only [hlen, List.take_left' rfl, List.drop_left' rfl]
  rw [if_pos htag]

/-- `Open` of what `Seal` returns gives the plaintext back (32-byte key, 12-byte nonce, plaintext
within the size limit), and the sealed bytes are 16 more than the plaintext. -/
theorem AEAD_Open_Seal (c : AEAD) (nonce pt ad : Bytes)
    (hk : c.key.length = 32) (hn : nonce.length = 12) (hp : pt.length ≤ 2 ^ 38 - 64) :
    ∃ sealed, c.Seal [] nonce pt ad = .ok sealed ∧ sealed.length = pt.length + 16 ∧
      c.Open [] nonce sealed ad = .ok pt := by
  have hct := chacha20_xor_length c.key nonce pt 1 hk hn
  refine ⟨chacha20_xor c.key nonce 1 pt ++ aead_tag c.key nonce ad (chacha20_xor c.key nonce 1 pt),
    ?_, ?_, ?_⟩
  · rw [AEAD_Seal_eq c [] nonce pt ad hn hp, List.nil_append]
  · rw [List.length_append, hct, aead_tag_length]
  · rw [AEAD_Open_eq c [] nonce _ _ ad hn (aead_tag_length _ _ _ _) (by rw [hct]; exact hp) rfl,
      List.nil_append, chacha20_xor_involutive c.key nonce pt 1 hk hn]

/-- `Open` fails on fewer than 16 bytes, whatever the key is. -/
theorem AEAD_Open_short (c : AEAD) (dst nonce ct ad : Bytes)
    (hn : nonce.length = 12) (hl : ct.length < 16) :
    c.Open dst nonce ct ad = .err "chacha20poly1305: message authentication failed" := by
  have h1 : ¬ (nonce.length ≠ chacha20poly1305_NonceSize) := by
    rw [hn]; decide
  unfold AEAD.Open
  rw [if_neg h1, if_pos hl]

/-- `Open` does not panic on a 12-byte nonce and a ciphertext within the size limit. -/
theorem AEAD_Open_returns (c : AEAD) (dst nonce ct ad : Bytes)
    (hn : nonce.length = 12) (hl : ct.length ≤ 2 ^ 38 - 48) :
    (c.Open dst nonce ct ad).Returns := by
  have h1 : ¬ (nonce.length ≠ chacha20poly1305_NonceSize) := by
    rw [hn]; decide
  have h3 : ¬ (2 ^ 38 - 48 < ct.length) := by omega
  unfold AEAD.Open
  rw [if_neg h1]
  by_cases h2 : ct.length < 16
  · rw [if_pos h2]; trivial
  · rw [if_neg h2, if_neg h3]
    by_cases h4 : aead_tag c.key nonce ad (List.take (ct.length - 16) ct)
        = List.drop (ct.length - 16) ct
    · simp only [h4, if_true]; trivial
    · simp only [h4, if_false]; trivial

/-! ### `Polish` and `Unpolish` (C1, C2, C4) -/

/-- A call that returned a value is followed by the rest of the function. -/
theorem Outcome.ok_bind {α β : Type} (v : α) (f : α → Outcome β) :
    (Outcome.ok v >>= f) = f v := rfl

/-- A call that returned an error ends the function with that error. -/
theorem Outcome.err_bind {α β : Type} (e : String) (f : α → Outcome β) :
    (Outcome.err e >>= f) = Outcome.err e := rfl

/-- A call that panicked ends the function with that panic. -/
theorem Outcome.panic_bind {α β : Type} (m : String) (f : α → Outcome β) :
    (Outcome.panic m >>= f) = Outcome.panic m := rfl

/-- Returning a value is the outcome `ok`. -/
theorem Outcome.pure_eq {α : Type} (v : α) : (pure v : Outcome α) = Outcome.ok v := rfl

/-- Reading a 12-byte nonce from `crypto/rand` into the nonce buffer gives the bytes drawn. -/
theorem rand_Read_nonce (c : AEAD) (nonce : Bytes) (hn : nonce.length = 12) :
    rand_Read (List.replicate c.NonceSize 0) (.ok nonce) = .ok nonce := by
  unfold rand_Read
  simp only
  rw [copy_full]
  rw [List.length_replicate, hn]
  rfl

/-- The slices of `Unpolish` on an input of at least 12 bytes. -/
theorem splitSlice_append (nonce data : Bytes) (hn : nonce.length = 12) :
    splitSlice (nonce ++ data) 12 = .ok (nonce, data) := by
  unfold splitSlice
  rw [if_neg (by rw [List.length_append]; omega), List.take_left' hn, List.drop_left' hn]

/-- The client `Polish` returns the nonce followed by the ciphertext and the tag. -/
theorem SilverPolishClient_Polish_eq (silver : SilverPolishClient) (c : AEAD) (input nonce : Bytes)
    (hc : silver.polishCipher = some c) (hn : nonce.length = 12)
    (hp : input.length ≤ 2 ^ 38 - 64) :
    silver.Polish input (.ok nonce)
      = .ok (nonce ++ (chacha20_xor c.key nonce 1 input
          ++ aead_tag c.key nonce [] (chacha20_xor c.key nonce 1 input))) := by
  unfold SilverPolishClient.Polish
  simp only [hc, rand_Read_nonce c nonce hn, AEAD_Seal_eq c [] nonce input [] hn hp,
    Outcome.ok_bind, Outcome.pure_eq, List.nil_append]

/-- The server `Polish` returns the nonce and nothing else, whatever the input is. -/
theorem SilverPolishServerConnection_Polish_eq (silver : SilverPolishServerConnection) (c : AEAD)
    (input nonce : Bytes) (hc : silver.polishCipher = some c) (hn : nonce.length = 12)
    (hp : input.length ≤ 2 ^ 38 - 64) :
    silver.Polish input (.ok nonce) = .ok nonce := by
  unfold SilverPolishServerConnection.Polish
  simp only [hc, rand_Read_nonce c nonce hn, AEAD_Seal_eq c [] nonce input [] hn hp,
    Outcome.ok_bind, Outcome.pure_eq, List.append_nil]

/-- The client `Unpolish` of a client `Polish` frame returns the plaintext, and the frame has
`12 + len + 16` bytes: the client half of C1 and C2 (32-byte key, plaintext within the limit). -/
theorem SilverPolishClient_roundtrip (silver : SilverPolishClient) (c : AEAD) (input nonce : Bytes)
    (hc : silver.polishCipher = some c) (hk : c.key.length = 32) (hn : nonce.length = 12)
    (hp : input.length ≤ 2 ^ 38 - 64) :
    ∃ frame, silver.Polish input (.ok nonce) = .ok frame ∧
      frame.length = 12 + input.length + 16 ∧ silver.Unpolish frame = .ok input := by
  have hct := chacha20_xor_length c.key nonce input 1 hk hn
  refine ⟨_, SilverPolishClient_Polish_eq silver c input nonce hc hn hp, ?_, ?_⟩
  · rw [List.length_append, List.length_append, hct, aead_tag_length, hn]
    omega
  · unfold SilverPolishClient.Unpolish
    have h12 : c.NonceSize = 12 := rfl
    simp only [hc, h12, splitSlice_append _ _ hn, Outcome.ok_bind, Outcome.pure_eq,
      AEAD_Open_eq c [] nonce _ _ [] hn (aead_tag_length _ _ _ _) (by rw [hct]; exact hp) rfl,
      List.nil_append, chacha20_xor_involutive c.key nonce input 1 hk hn]

/-- The server `Unpolish` never returns a byte of plaintext: when it succeeds, it returns the
empty string. -/
theorem SilverPolishServerConnection_Unpolish_empty (silver : SilverPolishServerConnection)
    (input out : Bytes) (h : silver.Unpolish input = .ok out) : out = [] := by
  unfold SilverPolishServerConnection.Unpolish at h
  cases hc : silver.polishCipher with
  | none => rw [hc] at h; cases h
  | some c =>
    rw [hc] at h
    simp only at h
    cases hs : splitSlice input c.NonceSize with
    | err e => rw [hs] at h; cases h
    | panic m => rw [hs] at h; cases h
    | ok nd =>
      obtain ⟨nonce, data⟩ := nd
      rw [hs] at h
      simp only [Outcome.ok_bind] at h
      cases ho : c.Open [] nonce data [] with
      | err e => rw [ho] at h; cases h
      | panic m => rw [ho] at h; cases h
      | ok r =>
        rw [ho] at h
        simp only [Outcome.ok_bind, Outcome.pure_eq] at h
        cases h
        rfl

/-- Both `Unpolish` functions panic on an input shorter than the nonce, once a cipher is set. -/
theorem Unpolish_short_panics (client : SilverPolishClient) (server : SilverPolishServerConnection)
    (c1 c2 : AEAD) (input : Bytes)
    (h1 : client.polishCipher = some c1) (h2 : server.polishCipher = some c2)
    (hl : input.length < 12) :
    client.Unpolish input = .panic "runtime error: slice bounds out of range" ∧
    server.Unpolish input = .panic "runtime error: slice bounds out of range" := by
  have hs : ∀ c : AEAD, splitSlice input c.NonceSize
      = .panic "runtime error: slice bounds out of range" := by
    intro c
    have hl' : input.length < c.NonceSize := hl
    unfold splitSlice
    rw [if_pos hl']
  unfold SilverPolishClient.Unpolish SilverPolishServerConnection.Unpolish
  simp only [h1, h2, hs, Outcome.panic_bind, and_self]

/-- Both `Unpolish` functions return (a plaintext or an error, no panic) on every input of at
least 12 bytes within the size limit of the cipher. -/
theorem Unpolish_returns (client : SilverPolishClient) (server : SilverPolishServerConnection)
    (c1 : AEAD) (input : Bytes) (h1 : client.polishCipher = some c1)
    (hl : 12 ≤ input.length) (hu : input.length ≤ 2 ^ 38 - 48) :
    (client.Unpolish input).Returns ∧ (server.Unpolish input).Returns := by
  have hs : ∀ c : AEAD, splitSlice input c.NonceSize = .ok (input.take 12, input.drop 12) := by
    intro c
    have hl' : ¬ (input.length < c.NonceSize) := Nat.not_lt.mpr hl
    unfold splitSlice
    rw [if_neg hl']
    rfl
  have hopen : ∀ c : AEAD, (c.Open [] (input.take 12) (input.drop 12) []).Returns := by
    intro c
    apply AEAD_Open_returns
    · rw [List.length_take]; omega
    · rw [List.length_drop]; omega
  constructor
  · unfold SilverPolishClient.Unpolish
    simp only [h1, hs, Outcome.ok_bind]
    have h := hopen c1
    cases ho : c1.Open [] (input.take 12) (input.drop 12) [] with
    | ok r => trivial
    | err e => trivial
    | panic m => rw [ho] at h; exact h.elim
  · unfold SilverPolishServerConnection.Unpolish
    cases hc : server.polishCipher with
    | none => trivial
    | some c2 =>
      simp only [hs, Outcome.ok_bind]
      have h := hopen c2
      cases ho : c2.Open [] (input.take 12) (input.drop 12) [] with
      | ok r => trivial
      | err e => trivial
      | panic m => rw [ho] at h; exact h.elim

/-- C1 at a one-byte plaintext, with the same 32-byte key on both sides: the client pair returns
the plaintext, but the server `Polish` frame does not open (neither with the server `Unpolish` nor
with the client one), and the server `Unpolish` of the client frame returns the empty string
instead of the plaintext. -/
theorem Polish_Unpolish_sample :
    (sampleClient.Polish [0x61] (.ok sampleNonce)).bind sampleClient.Unpolish = .ok [0x61] ∧
    (sampleServerConnection.Polish [0x61] (.ok sampleNonce)).bind sampleServerConnection.Unpolish
      = .err "chacha20poly1305: message authentication failed" ∧
    (sampleServerConnection.Polish [0x61] (.ok sampleNonce)).bind sampleClient.Unpolish
      = .err "chacha20poly1305: message authentication failed" ∧
    (sampleClient.Polish [0x61] (.ok sampleNonce)).bind sampleServerConnection.Unpolish
      = .ok [] := by
  decide!

/-- C2 at a one-byte plaintext: the sealed bytes are 17 bytes (one of ciphertext, 16 of tag); the
client frame is the nonce followed by them, 29 bytes; the server frame is the 12 bytes of the nonce
and nothing else. -/
theorem Polish_frame_sample :
    AEAD.Seal ⟨sampleCipherKey⟩ [] sampleNonce [0x61] []
      = .ok [254, 247, 215, 96, 183, 30, 111, 54, 237, 44, 121, 141, 82, 128, 150, 78, 220] ∧
    sampleClient.Polish [0x61] (.ok sampleNonce)
      = .ok (sampleNonce ++
          [254, 247, 215, 96, 183, 30, 111, 54, 237, 44, 121, 141, 82, 128, 150, 78, 220]) ∧
    sampleServerConnection.Polish [0x61] (.ok sampleNonce) = .ok sampleNonce ∧
    sampleNonce.length = 12 := by
  decide!

/-- C4 at inputs shorter than the nonce: the first 11 bytes of a frame produced by `Polish`, and
the empty input, make the client `Unpolish` and the server `Unpolish` panic; a frame cut inside
the tag gives an error. -/
theorem Unpolish_short_input_sample :
    sampleClient.Polish [0x61] (.ok sampleNonce)
      = .ok (sampleNonce ++
          [254, 247, 215, 96, 183, 30, 111, 54, 237, 44, 121, 141, 82, 128, 150, 78, 220]) ∧
    sampleClient.Unpolish (sampleNonce.take 11)
      = .panic "runtime error: slice bounds out of range" ∧
    sampleServerConnection.Unpolish (sampleNonce.take 11)
      = .panic "runtime error: slice bounds out of range" ∧
    sampleClient.Unpolish [] = .panic "runtime error: slice bounds out of range" ∧
    sampleServerConnection.Unpolish [] = .panic "runtime error: slice bounds out of range" ∧
    sampleClient.Unpolish (sampleNonce ++ [254, 247, 215])
      = .err "chacha20poly1305: message authentication failed" := by
  decide!

/-! ### The keys of the two sides (C3) -/

/-- The client derives its key with `X963KDF` from the encoding of the shared point and its own
public key; the server (see `SilverPolishServerConnection_Handshake_eq`) derives its key with HKDF
from the encoding of the shared point alone. -/
theorem NewSilverClient_eq (config : SilverPolishClientConfig) (priv : Bytes) (x y : Nat)
    (h : elliptic_Unmarshal config.ServerPublicKey = some (x, y)) :
    NewSilverClient config (.ok priv) =
      .ok ⟨config.ServerPublicKey, config.ChunkSize,
        elliptic_Marshal (P256_ScalarBaseMult priv).1 (P256_ScalarBaseMult priv).2, priv,
        X963KDF (elliptic_Marshal (P256_ScalarMult x y priv).1 (P256_ScalarMult x y priv).2)
          (elliptic_Marshal (P256_ScalarBaseMult priv).1 (P256_ScalarBaseMult priv).2),
        some ⟨X963KDF (elliptic_Marshal (P256_ScalarMult x y priv).1 (P256_ScalarMult x y priv).2)
          (elliptic_Marshal (P256_ScalarBaseMult priv).1 (P256_ScalarBaseMult priv).2)⟩⟩ := by
  unfold NewSilverClient
  simp only [elliptic_GenerateKey, h, chacha20poly1305_New_X963KDF]

/-- C3 at concrete key pairs: after a complete run of the two handshakes over a pipe, with the
server config generated from the server scalar and the client built from the client scalar, the
client cipher holds the key 67854d90... and the server cipher the key 893ad280...; the two sides
computed the same shared point, and the client key is `X963KDF` of its encoding with the client
public key while the server key is the HKDF output for the same encoding. -/
theorem handshakeRun_keys_differ :
    handshakeRun ⟨.ok sampleServerKey, .ok sampleTempKey, [.ok [0, 0]]⟩ (.ok sampleClientKey)
        (.ok (List.replicate 1052 0)) =
      .ok (some ⟨[103, 133, 77, 144, 200, 168, 76, 48, 92, 47, 233, 25, 9, 20, 102, 140, 68, 141, 28,
                  70, 217, 93, 38, 183, 8, 187, 62, 184, 137, 196, 60, 50]⟩,
           some ⟨[137, 58, 210, 128, 83, 21, 78, 194, 95, 13, 112, 243, 199, 223, 49, 238, 185, 107, 1,
                  135, 247, 49, 16, 122, 77, 120, 88, 23, 8, 198, 134, 81]⟩) ∧
    P256_ScalarMult sampleClientPoint.1 sampleClientPoint.2 sampleServerKey = sampleSharedPoint ∧
    X963KDF (elliptic_Marshal sampleSharedPoint.1 sampleSharedPoint.2)
        (elliptic_Marshal sampleClientPoint.1 sampleClientPoint.2)
      = [103, 133, 77, 144, 200, 168, 76, 48, 92, 47, 233, 25, 9, 20, 102, 140, 68, 141, 28,
         70, 217, 93, 38, 183, 8, 187, 62, 184, 137, 196, 60, 50] ∧
    hkdf_Read (elliptic_Marshal sampleSharedPoint.1 sampleSharedPoint.2) none []
        chacha20poly1305_KeySize
      = .ok [137, 58, 210, 128, 83, 21, 78, 194, 95, 13, 112, 243, 199, 223, 49, 238, 185, 107, 1,
         135, 247, 49, 16, 122, 77, 120, 88, 23, 8, 198, 134, 81] := by
  decide!

end Silver

/-! ### The mimicry factory (C6) -/

namespace Toneburst

/-- C6: `New` returns no strategy when the config is nil, when the selector is "whalesong" and
the Whalesong config is nil, when the selector is "monolith" and the Monolith config is nil, and
when the selector is any other string, whatever the nested configs and the constructors are. -/
theorem New_returns_nil {W M T : Type} (NewWhalesong : W → T) (NewMonolith : M → T)
    (config : Option (Config W M))
    (h : config = none ∨ ∃ c, config = some c ∧
      ((c.Selector = "whalesong" ∧ c.Whalesong = none) ∨
       (c.Selector = "monolith" ∧ c.Monolith = none) ∨
       (c.Selector ≠ "whalesong" ∧ c.Selector ≠ "monolith"))) :
    New NewWhalesong NewMonolith config = none := by
  rcases h with h | ⟨c, hc, h⟩
  · subst h; rfl
  · subst hc
    rcases h with ⟨hs, hw⟩ | ⟨hs, hm⟩ | ⟨h1, h2⟩
    · simp [New, hs, hw]
    · simp [New, hs, hm]
    · simp [New, h1, h2]

/-- The four cases of C6 at concrete configs: nil, "whalesong" without its config, "monolith"
without its config, and an unknown selector with both nested configs present. -/
theorem New_returns_nil_witness :
    New (fun w : Nat => w) (fun m : Nat => m) none = none ∧
    New (fun w : Nat => w) (fun m : Nat => m) (some ⟨"whalesong", none, some 2⟩) = none ∧
    New (fun w : Nat => w) (fun m : Nat => m) (some ⟨"monolith", some 1, none⟩) = none ∧
    New (fun w : Nat => w) (fun m : Nat => m) (some ⟨"unknown", some 1, some 2⟩) = none :=
  ⟨New_returns_nil _ _ none (Or.inl rfl),
   New_returns_nil _ _ _ (Or.inr ⟨_, rfl, Or.inl ⟨rfl, rfl⟩⟩),
   New_returns_nil _ _ _ (Or.inr ⟨_, rfl, Or.inr (Or.inl ⟨rfl, rfl⟩)⟩),
   New_returns_nil _ _ _ (Or.inr ⟨_, rfl, Or.inr (Or.inr ⟨by decide, by decide⟩)⟩)⟩

end Toneburst
